import Mathlib

/-!
Verification of the vouch-skills header/client/artifact logic
(`skills/server-side-web-proofs/scripts/vouch-client.ts`).

Strings are modelled as `List Char` (`Str`); JavaScript string operations
(`trim`, `startsWith`, `toLowerCase`, `indexOf`/`slice` splitting) are
embedded as executable functions on `Str`.
-/

namespace Vouch

/-- Strings are lists of characters. -/
abbrev Str := List Char

/-- Shorthand turning a Lean string literal into the `List Char` model. -/
def str (s : String) : Str := s.data

/-- The characters removed by JavaScript `String.prototype.trim`
(ECMAScript WhiteSpace and LineTerminator code points). -/
def isJsWhitespace (c : Char) : Bool :=
  c = ' ' || c = '\t' || c = '\n' || c = '\r' ||
  c.toNat = 0x0b || c.toNat = 0x0c || c.toNat = 0xa0 || c.toNat = 0xfeff ||
  c.toNat = 0x1680 || (0x2000 ≤ c.toNat && c.toNat ≤ 0x200a) ||
  c.toNat = 0x2028 || c.toNat = 0x2029 || c.toNat = 0x202f ||
  c.toNat = 0x205f || c.toNat = 0x3000

/-- Leading-whitespace removal (JavaScript `trimStart`). -/
def jsTrimStart (s : Str) : Str := s.dropWhile isJsWhitespace

/-- Trailing-whitespace removal (JavaScript `trimEnd`). -/
def jsTrimEnd (s : Str) : Str := (s.reverse.dropWhile isJsWhitespace).reverse

/-- JavaScript `s.trim()`: drop leading and trailing whitespace. -/
def jsTrim (s : Str) : Str := jsTrimEnd (jsTrimStart s)

/-- JavaScript `s.startsWith(p)` (first argument the string, second the
candidate leading segment). -/
def jsStartsWith : Str → Str → Bool
  | _, [] => true
  | [], _ :: _ => false
  | c :: cs, p :: ps => c == p && jsStartsWith cs ps

/-- JavaScript `s.toLowerCase()` restricted to the ASCII range, which is all
the source ever lowercases (header names). -/
def strToLower (s : Str) : Str := s.map Char.toLower

/--
`sanitizeHeader` (vouch-client.ts lines 233-248).  The source computes
`colonIndex = trimmed.indexOf(':')` and the slices
`trimmed.slice(0, colonIndex)` / `trimmed.slice(colonIndex + 1)`; with the
first colon as the split point these slices are
`takeWhile (· != ':')` and `drop 1 ∘ dropWhile (· != ':')`, and
`colonIndex === -1` is `':' ∉ trimmed`.
-/
def sanitizeHeader (header : Str) : Option Str :=
  let trimmed := jsTrim header
  if trimmed.isEmpty then none
  else if (':') ∉ trimmed then none
  else
    let name := jsTrim (trimmed.takeWhile (fun c => c != ':'))
    let value := jsTrim ((trimmed.dropWhile (fun c => c != ':')).drop 1)
    if name.isEmpty || value.isEmpty then none
    else if jsStartsWith name [':'] then none
    else if strToLower name == str "accept-encoding" then none
    else some (name ++ ':' :: ' ' :: value)

section TrimLemmas

theorem dropWhile_eq_self_of_head {p : Char → Bool} {s : Str}
    (h : ∀ c, s.head? = some c → p c = false) : s.dropWhile p = s := by
  cases s with
  | nil => rfl
  | cons a t => rw [List.dropWhile_cons, h a rfl]; simp

theorem head_dropWhile_false {p : Char → Bool} :
    ∀ {s : Str} {c : Char}, (s.dropWhile p).head? = some c → p c = false
  | [], _, h => by simp [List.dropWhile] at h
  | a :: t, c, h => by
    rw [List.dropWhile_cons] at h
    split at h
    · exact head_dropWhile_false h
    · next hp =>
      simp only [List.head?_cons, Option.some.injEq] at h
      subst h
      exact Bool.not_eq_true _ ▸ hp

theorem mem_of_mem_dropWhile {p : Char → Bool} {s : Str} {c : Char}
    (h : c ∈ s.dropWhile p) : c ∈ s :=
  (List.dropWhile_suffix p).subset h

theorem mem_dropWhile_of_mem {p : Char → Bool} {c : Char} (hc : p c = false) :
    ∀ {s : Str}, c ∈ s → c ∈ s.dropWhile p
  | a :: t, h => by
    rw [List.dropWhile_cons]
    rcases List.mem_cons.mp h with rfl | ht
    · simp [hc]
    · by_cases hp : p a
      · simpa [hp] using mem_dropWhile_of_mem hc ht
      · simp [hp, List.mem_cons, ht]

theorem jsTrimEnd_prefix (s : Str) : jsTrimEnd s <+: s := by
  have h := List.dropWhile_suffix (l := s.reverse) isJsWhitespace
  have h2 := List.reverse_prefix.mpr h
  simpa [jsTrimEnd] using h2

theorem head_jsTrimStart_not_ws {s : Str} {c : Char}
    (h : (jsTrimStart s).head? = some c) : isJsWhitespace c = false :=
  head_dropWhile_false h

theorem getLast_jsTrimEnd_not_ws {s : Str} {c : Char}
    (h : (jsTrimEnd s).getLast? = some c) : isJsWhitespace c = false := by
  rw [jsTrimEnd, List.getLast?_reverse] at h
  exact head_dropWhile_false h

theorem head_jsTrimEnd {s : Str} {c : Char}
    (h : (jsTrimEnd s).head? = some c) : s.head? = some c := by
  rcases jsTrimEnd_prefix s with ⟨r, hr⟩
  rw [← hr, List.head?_append]
  cases he : (jsTrimEnd s).head? with
  | none => simp [he] at h
  | some d => rw [he] at h; simpa [he] using h

theorem head_jsTrim_not_ws {s : Str} {c : Char}
    (h : (jsTrim s).head? = some c) : isJsWhitespace c = false :=
  head_jsTrimStart_not_ws (head_jsTrimEnd h)

theorem getLast_jsTrim_not_ws {s : Str} {c : Char}
    (h : (jsTrim s).getLast? = some c) : isJsWhitespace c = false :=
  getLast_jsTrimEnd_not_ws h

theorem jsTrimStart_eq_self {s : Str}
    (h : ∀ c, s.head? = some c → isJsWhitespace c = false) : jsTrimStart s = s :=
  dropWhile_eq_self_of_head h

theorem jsTrimEnd_eq_self {s : Str}
    (h : ∀ c, s.getLast? = some c → isJsWhitespace c = false) : jsTrimEnd s = s := by
  rw [jsTrimEnd, dropWhile_eq_self_of_head, List.reverse_reverse]
  intro c hc
  exact h c (by rwa [List.head?_reverse] at hc)

theorem jsTrim_eq_self {s : Str}
    (hh : ∀ c, s.head? = some c → isJsWhitespace c = false)
    (hl : ∀ c, s.getLast? = some c → isJsWhitespace c = false) : jsTrim s = s := by
  rw [jsTrim, jsTrimStart_eq_self hh, jsTrimEnd_eq_self hl]

theorem jsTrim_idem (s : Str) : jsTrim (jsTrim s) = jsTrim s :=
  jsTrim_eq_self (fun _ h => head_jsTrim_not_ws h) (fun _ h => getLast_jsTrim_not_ws h)

theorem jsTrim_cons_ws {c : Char} (hc : isJsWhitespace c = true) (s : Str) :
    jsTrim (c :: s) = jsTrim s := by
  rw [jsTrim, jsTrim, jsTrimStart, jsTrimStart, List.dropWhile_cons, hc]
  simp

theorem mem_jsTrim_iff {c : Char} (hc : isJsWhitespace c = false) (s : Str) :
    c ∈ jsTrim s ↔ c ∈ s := by
  rw [jsTrim, jsTrimEnd, jsTrimStart]
  constructor
  · intro h
    have h1 := List.mem_reverse.mp h
    have h2 := mem_of_mem_dropWhile h1
    exact mem_of_mem_dropWhile (List.mem_reverse.mp h2)
  · intro h
    have h1 := mem_dropWhile_of_mem hc h
    have h2 := mem_dropWhile_of_mem hc (List.mem_reverse.mpr h1)
    exact List.mem_reverse.mpr h2

theorem mem_of_mem_jsTrim {c : Char} {s : Str} (h : c ∈ jsTrim s) : c ∈ s := by
  rw [jsTrim, jsTrimEnd, jsTrimStart] at h
  exact mem_of_mem_dropWhile (List.mem_reverse.mp (mem_of_mem_dropWhile (List.mem_reverse.mp h)))

end TrimLemmas

example : sanitizeHeader (str "  X-Foo :  bar ") = some (str "X-Foo: bar") := by decide
example : sanitizeHeader (str "NoColonHere") = none := by decide
example : sanitizeHeader (str ":authority: example.com") = none := by decide
example : sanitizeHeader (str "Accept-ENCODING: gzip") = none := by decide
example : sanitizeHeader (str "X: ") = none := by decide
example : sanitizeHeader (str "") = none := by decide

/-- **C1.** `sanitizeHeader` returns `none` exactly when the input is empty
after trimming, contains no colon, has an empty name or empty value after
splitting on the first colon and trimming each side, has a name beginning
with `':'`, or has a name equal to `accept-encoding` case-insensitively;
in every other case it returns `Name: value` (trimmed name, colon, single
space, trimmed value). -/
theorem sanitizeHeader_characterization (h : Str) :
    sanitizeHeader h =
      (if jsTrim h = [] ∨ (':') ∉ h ∨
          jsTrim ((jsTrim h).takeWhile (fun c => c != ':')) = [] ∨
          jsTrim (((jsTrim h).dropWhile (fun c => c != ':')).drop 1) = [] ∨
          jsStartsWith (jsTrim ((jsTrim h).takeWhile (fun c => c != ':'))) [':'] = true ∨
          strToLower (jsTrim ((jsTrim h).takeWhile (fun c => c != ':'))) = str "accept-encoding"
       then none
       else some (jsTrim ((jsTrim h).takeWhile (fun c => c != ':')) ++ ':' :: ' ' ::
                  jsTrim (((jsTrim h).dropWhile (fun c => c != ':')).drop 1))) := by
  have hmem : ((':') ∈ h) ↔ (':') ∈ jsTrim h := (mem_jsTrim_iff (by decide) h).symm
  simp only [sanitizeHeader]
  by_cases h1 : jsTrim h = []
  · simp [h1]
  · by_cases h2 : (':') ∈ jsTrim h
    · have h2' : (':') ∈ h := (mem_jsTrim_iff (by decide) h).mp h2
      by_cases hn : jsTrim ((jsTrim h).takeWhile (fun c => c != ':')) = []
      · simp [h1, h2, h2', hn, List.isEmpty_iff]
      · by_cases hv : jsTrim (((jsTrim h).dropWhile (fun c => c != ':')).tail) = []
        · simp [h1, h2, h2', hn, hv, List.isEmpty_iff]
        · by_cases hs : jsStartsWith (jsTrim ((jsTrim h).takeWhile (fun c => c != ':'))) [':'] = true
          · simp [h1, h2, h2', hn, hv, hs, List.isEmpty_iff]
          · by_cases hl : strToLower (jsTrim ((jsTrim h).takeWhile (fun c => c != ':'))) =
                str "accept-encoding"
            · simp [h1, h2, h2', hn, hv, hs, hl, List.isEmpty_iff]
            · simp [h1, h2, h2', hn, hv, hs, hl, List.isEmpty_iff]
    · have h2' : (':') ∉ h := fun hc => h2 (hmem.mp hc)
      simp [h1, h2, h2']

section SanitizeIdem

theorem takeWhile_append_colon {nm : Str} (rest : Str) (h : ∀ c ∈ nm, c ≠ ':') :
    List.takeWhile (fun c => c != ':') (nm ++ ':' :: rest) = nm := by
  have hself : List.takeWhile (fun c => c != ':') nm = nm :=
    List.takeWhile_eq_self_iff.mpr fun c hc => bne_iff_ne.mpr (h c hc)
  rw [List.takeWhile_append, if_pos (by rw [hself])]
  simp [List.takeWhile_cons]

theorem dropWhile_append_colon {nm : Str} (rest : Str) (h : ∀ c ∈ nm, c ≠ ':') :
    List.dropWhile (fun c => c != ':') (nm ++ ':' :: rest) = ':' :: rest := by
  have hnil : List.dropWhile (fun c => c != ':') nm = [] :=
    List.dropWhile_eq_nil_iff.mpr fun c hc => bne_iff_ne.mpr (h c hc)
  rw [List.dropWhile_append, if_pos (by simp [hnil])]
  simp [List.dropWhile_cons]

theorem jsTrim_head_of_eq_self {s : Str} (hs : jsTrim s = s) :
    ∀ c, s.head? = some c → isJsWhitespace c = false := by
  intro c hc
  exact head_jsTrim_not_ws (by rw [hs]; exact hc)

theorem jsTrim_getLast_of_eq_self {s : Str} (hs : jsTrim s = s) :
    ∀ c, s.getLast? = some c → isJsWhitespace c = false := by
  intro c hc
  exact getLast_jsTrim_not_ws (by rw [hs]; exact hc)

/-- An accepted output of `sanitizeHeader` always decomposes as
`name ++ ": " ++ value` with trimmed, non-empty, colon-free name and
trimmed, non-empty value, the name not being `accept-encoding`. -/
theorem sanitizeHeader_eq_some {h out : Str} (H : sanitizeHeader h = some out) :
    ∃ name value, out = name ++ ':' :: ' ' :: value ∧
      jsTrim name = name ∧ jsTrim value = value ∧
      name ≠ [] ∧ value ≠ [] ∧ (∀ c ∈ name, c ≠ ':') ∧
      strToLower name ≠ str "accept-encoding" := by
  simp only [sanitizeHeader] at H
  refine ⟨jsTrim ((jsTrim h).takeWhile fun c => c != ':'),
          jsTrim (((jsTrim h).dropWhile fun c => c != ':').drop 1), ?_⟩
  split at H
  · exact absurd H (by simp)
  · split at H
    · exact absurd H (by simp)
    · split at H
      · exact absurd H (by simp)
      · split at H
        · exact absurd H (by simp)
        · split at H
          · exact absurd H (by simp)
          · next h12 h3 h4 h5 =>
            refine ⟨(Option.some.injEq _ _ ▸ H).symm, jsTrim_idem _, jsTrim_idem _, ?_, ?_, ?_, ?_⟩
            · intro he
              exact h3 (by simp [he])
            · intro he
              rw [List.drop_one] at he
              exact h3 (by simp [he])
            · intro c hc
              have h1 := mem_of_mem_jsTrim hc
              have h2 := List.mem_takeWhile_imp h1
              exact bne_iff_ne.mp h2
            · intro he
              exact h5 (by simp [he])

/-- A string already in canonical `Name: value` shape is accepted unchanged
by `sanitizeHeader`. -/
theorem sanitizeHeader_canonical {name value : Str}
    (hn : jsTrim name = name) (hv : jsTrim value = value)
    (hne : name ≠ []) (hve : value ≠ [])
    (hcolon : ∀ c ∈ name, c ≠ ':')
    (hae : strToLower name ≠ str "accept-encoding") :
    sanitizeHeader (name ++ ':' :: ' ' :: value) = some (name ++ ':' :: ' ' :: value) := by
  have houttrim : jsTrim (name ++ ':' :: ' ' :: value) = name ++ ':' :: ' ' :: value := by
    apply jsTrim_eq_self
    · intro c hc
      rw [List.head?_append] at hc
      cases hnh : name.head? with
      | none => exact absurd (List.head?_eq_none_iff.mp hnh) hne
      | some d =>
        rw [hnh] at hc
        simp only [Option.or_some, Option.some.injEq] at hc
        subst hc
        exact jsTrim_head_of_eq_self hn d hnh
    · intro c hc
      have hrw : name ++ ':' :: ' ' :: value = (name ++ [':', ' ']) ++ value := by simp
      rw [hrw, List.getLast?_append] at hc
      cases hvl : value.getLast? with
      | none => exact absurd (List.getLast?_eq_none_iff.mp hvl) hve
      | some d =>
        rw [hvl] at hc
        simp only [Option.or_some, Option.some.injEq] at hc
        subst hc
        exact jsTrim_getLast_of_eq_self hv d hvl
  have hmemcolon : (':') ∈ name ++ ':' :: ' ' :: value := by simp
  have htake := takeWhile_append_colon (' ' :: value) hcolon
  have hdrop := dropWhile_append_colon (' ' :: value) hcolon
  have hstarts : jsStartsWith name [':'] = false := by
    cases name with
    | nil => exact absurd rfl hne
    | cons a t =>
      have : a ≠ ':' := hcolon a (List.mem_cons_self a t)
      simp [jsStartsWith, this]
  unfold sanitizeHeader
  rw [houttrim]
  rw [if_neg (by simp [hne]), if_neg (by simp [hmemcolon])]
  rw [htake, hdrop]
  simp only [List.drop_one, List.tail_cons]
  rw [hn, jsTrim_cons_ws (by decide) value, hv]
  rw [if_neg (by simp [hne, hve]), if_neg (by simp [hstarts]), if_neg (by simp [hae])]

/-- **C10.** `sanitizeHeader` is idempotent on its accepted outputs: whenever
it returns `some s`, running it again on `s` returns `s` itself. -/
theorem sanitizeHeader_idempotent (h s : Str) (H : sanitizeHeader h = some s) :
    sanitizeHeader s = some s := by
  obtain ⟨name, value, rfl, hn, hv, hne, hve, hcolon, hae⟩ := sanitizeHeader_eq_some H
  exact sanitizeHeader_canonical hn hv hne hve hcolon hae

/-- Witness for C10 at the concrete input `"  X-Custom :  a:b  "`. -/
theorem sanitizeHeader_idempotent_witness :
    sanitizeHeader (str "  X-Custom :  a:b  ") = some (str "X-Custom: a:b") ∧
    sanitizeHeader (str "X-Custom: a:b") = some (str "X-Custom: a:b") :=
  ⟨by decide, sanitizeHeader_idempotent (str "  X-Custom :  a:b  ") (str "X-Custom: a:b") (by decide)⟩

end SanitizeIdem

section BuildHeaders

/-- JS truthiness of an optional string field (`undefined` and `""` are falsy). -/
def truthy : Option Str → Bool
  | some s => !s.isEmpty
  | none => false

/-- JavaScript `a || b` for an optional string `a`: `a` when truthy, else `b`. -/
def jsOr (o : Option Str) (d : Str) : Str :=
  if truthy o then o.getD [] else d

/-- Options of `buildHeaders` (vouch-client.ts lines 263-268).
`additionalHeaders` is a `Record<string, string>`, modelled as its
insertion-ordered entry list (`Object.entries`). -/
structure BuildHeadersOptions where
  authToken : Option Str := none
  cookies : Option Str := none
  accept : Option Str := none
  additionalHeaders : List (Str × Str) := []

/-- `buildHeaders` (vouch-client.ts lines 263-296): Accept first (defaulted),
then Authorization with `Bearer ` prepended unless already present, then
Cookie, then the sanitized additional headers; rejected entries are dropped. -/
def buildHeaders (options : BuildHeadersOptions) : List Str :=
  let headers : List Str := []
  let headers := headers ++ [str "Accept: " ++ jsOr options.accept (str "application/json")]
  let headers :=
    match options.authToken with
    | some t =>
      if t.isEmpty then headers
      else
        let token := if jsStartsWith t (str "Bearer ") then t else str "Bearer " ++ t
        headers ++ [str "Authorization: " ++ token]
    | none => headers
  let headers :=
    match options.cookies with
    | some c => if c.isEmpty then headers else headers ++ [str "Cookie: " ++ c]
    | none => headers
  options.additionalHeaders.foldl
    (fun acc p =>
      match sanitizeHeader (p.1 ++ ':' :: ' ' :: p.2) with
      | some s => acc ++ [s]
      | none => acc) headers

example : buildHeaders {} = [str "Accept: application/json"] := by decide
example : buildHeaders { cookies := some (str "a=b"), accept := some (str "text/plain"),
                         additionalHeaders := [(str "X-One", str "1"), (str "Bad", str " "),
                                               (str "X-Two", str "2")] } =
    [str "Accept: text/plain", str "Cookie: a=b", str "X-One: 1", str "X-Two: 2"] := by decide

/-- The header contributed by a truthy optional field (claim-side helper). -/
def optHeader (o : Option Str) (f : Str → Str) : List Str :=
  match o with
  | some v => if v.isEmpty then [] else [f v]
  | none => []

theorem foldl_push_filterMap (f : Str × Str → Option Str) :
    ∀ (l : List (Str × Str)) (acc : List Str),
      l.foldl (fun acc p => match f p with | some s => acc ++ [s] | none => acc) acc
        = acc ++ l.filterMap f
  | [], acc => by simp
  | p :: t, acc => by
    simp only [List.foldl_cons, List.filterMap_cons]
    cases f p with
    | some s => rw [foldl_push_filterMap f t]; simp
    | none => rw [foldl_push_filterMap f t]

/-- **C4.** `buildHeaders` returns the Accept header first (with value
`options.accept`, defaulting to `application/json`), then Authorization when
an auth token is supplied, then Cookie when cookies are supplied, then the
sanitized additional headers in insertion order with rejected entries
silently dropped; `buildHeaders {}` is exactly `["Accept: application/json"]`
(and, being a pure function of its argument, identical inputs give identical
output). -/
theorem buildHeaders_characterization (options : BuildHeadersOptions) :
    buildHeaders options =
      (str "Accept: " ++ jsOr options.accept (str "application/json"))
        :: (optHeader options.authToken (fun t =>
              str "Authorization: " ++
                (if jsStartsWith t (str "Bearer ") then t else str "Bearer " ++ t))
            ++ optHeader options.cookies (fun c => str "Cookie: " ++ c)
            ++ options.additionalHeaders.filterMap
                 (fun p => sanitizeHeader (p.1 ++ ':' :: ' ' :: p.2)))
    ∧ buildHeaders {} = [str "Accept: application/json"] := by
  constructor
  · show (options.additionalHeaders.foldl _ _) = _
    rw [foldl_push_filterMap]
    cases ha : options.authToken <;> cases hc : options.cookies <;>
      simp [optHeader] <;> split_ifs <;> simp
  · decide

/-- **C5.** For every non-empty token `t`, `buildHeaders {authToken := t}`
emits `Authorization: Bearer t` when `t` does not start with `Bearer `, and
`Authorization: t` unchanged when it does; in particular `"abc"` and
`"Bearer abc"` both yield `Authorization: Bearer abc`. -/
theorem buildHeaders_authToken (t : Str) (ht : t ≠ []) :
    buildHeaders { authToken := some t } =
      [str "Accept: application/json",
       if jsStartsWith t (str "Bearer ") then str "Authorization: " ++ t
       else str "Authorization: Bearer " ++ t] ∧
    buildHeaders { authToken := some (str "abc") } =
      [str "Accept: application/json", str "Authorization: Bearer abc"] ∧
    buildHeaders { authToken := some (str "Bearer abc") } =
      [str "Accept: application/json", str "Authorization: Bearer abc"] := by
  refine ⟨?_, by decide, by decide⟩
  have h := (buildHeaders_characterization { authToken := some t }).1
  rw [h]
  simp only [optHeader, List.isEmpty_iff]
  rw [if_neg ht]
  have hcat : str "Authorization: " ++ str "Bearer " = str "Authorization: Bearer " := by decide
  have hassoc : str "Authorization: " ++ (str "Bearer " ++ t) = str "Authorization: Bearer " ++ t := by
    rw [← List.append_assoc, hcat]
  have hacc : str "Accept: " ++ str "application/json" = str "Accept: application/json" := by decide
  by_cases hb : jsStartsWith t (str "Bearer ")
  · simp only [hb, if_true]
    simp [jsOr, truthy, hacc]
  · simp only [hb, if_false]
    simp [jsOr, truthy, hacc]
    exact hassoc

/-- Witness for C5 at the concrete token `"abc"`. -/
theorem buildHeaders_authToken_witness :
    buildHeaders { authToken := some (str "abc") } =
      [str "Accept: application/json", str "Authorization: Bearer abc"] :=
  (buildHeaders_authToken (str "abc") (by decide)).2.1

end BuildHeaders

section BuildRedaction

/-- Options of `buildHeadersWithRedaction` (vouch-client.ts lines 331-340). -/
structure BuildRedactionOptions where
  authToken : Option Str := none
  cookies : Option Str := none
  accept : Option Str := none
  additionalHeaders : List (Str × Str) := []
  sensitiveHeaders : List Str := []
  excludeFromRedaction : List Str := []

/-- The default sensitive header names (vouch-client.ts line 345). -/
def defaultSensitive : List Str := [str "authorization", str "cookie", str "x-api-key"]

/-- `shouldRedact` (vouch-client.ts lines 351-358): exclusion wins, then the
default sensitive set, then caller-supplied sensitive names (all
case-insensitive). -/
def shouldRedact (options : BuildRedactionOptions) (headerName : Str) : Bool :=
  let lower := strToLower headerName
  if lower ∈ options.excludeFromRedaction.map strToLower then false
  else if lower ∈ defaultSensitive then true
  else options.sensitiveHeaders.any (fun h => strToLower h == lower)

/-- `HeaderRedaction.request` payload (vouch-client.ts lines 37-42). -/
structure RequestRedaction where
  headers : List Str
  deriving DecidableEq

/-- Redaction descriptor sent alongside a proof request. -/
structure HeaderRedaction where
  request : RequestRedaction
  deriving DecidableEq

/-- Result of `buildHeadersWithRedaction` (vouch-client.ts lines 253-258). -/
structure HeadersWithRedaction where
  headers : List Str
  redaction : List HeaderRedaction
  deriving DecidableEq

/-- `buildHeadersWithRedaction` (vouch-client.ts lines 331-406). -/
def buildHeadersWithRedaction (options : BuildRedactionOptions) : HeadersWithRedaction :=
  let headers : List Str := []
  let redactHeaders : List Str := []
  let headers := headers ++ [str "Accept: " ++ jsOr options.accept (str "application/json")]
  let st : List Str × List Str :=
    match options.authToken with
    | some t =>
      if t.isEmpty then (headers, redactHeaders)
      else
        let token := if jsStartsWith t (str "Bearer ") then t else str "Bearer " ++ t
        (headers ++ [str "Authorization: " ++ token],
         if shouldRedact options (str "Authorization") then redactHeaders ++ [str "Authorization"]
         else redactHeaders)
    | none => (headers, redactHeaders)
  let st :=
    match options.cookies with
    | some c =>
      if c.isEmpty then st
      else
        (st.1 ++ [str "Cookie: " ++ c],
         if shouldRedact options (str "Cookie") then st.2 ++ [str "Cookie"] else st.2)
    | none => st
  let st := options.additionalHeaders.foldl
    (fun acc p =>
      match sanitizeHeader (p.1 ++ ':' :: ' ' :: p.2) with
      | some s =>
        (acc.1 ++ [s], if shouldRedact options p.1 then acc.2 ++ [p.1] else acc.2)
      | none => acc) st
  let redaction : List HeaderRedaction :=
    if st.2.isEmpty then [] else [{ request := { headers := st.2 } }]
  { headers := st.1, redaction := redaction }

/-- Name part of an emitted `Name: value` string (claim-side helper). -/
def headerName (h : Str) : Str := h.takeWhile (fun c => c != ':')

/-- All names listed by the redaction descriptors (claim-side helper). -/
def redactionNames (r : HeadersWithRedaction) : List Str :=
  (r.redaction.map (fun d => d.request.headers)).flatten

example :
    buildHeadersWithRedaction { authToken := some (str "x") } =
      { headers := [str "Accept: application/json", str "Authorization: Bearer x"],
        redaction := [{ request := { headers := [str "Authorization"] } }] } := by decide
example :
    buildHeadersWithRedaction { authToken := some (str "x"),
                                excludeFromRedaction := [str "Authorization"] } =
      { headers := [str "Accept: application/json", str "Authorization: Bearer x"],
        redaction := [] } := by decide
example :
    redactionNames (buildHeadersWithRedaction
      { additionalHeaders := [(str "X-Api-Key", str "k")] }) = [str "X-Api-Key"] := by decide

/-- The sanitized additional headers (claim-side helper). -/
def addHeaderStrs (options : BuildRedactionOptions) : List Str :=
  options.additionalHeaders.filterMap (fun p => sanitizeHeader (p.1 ++ ':' :: ' ' :: p.2))

/-- The redaction names contributed by the additional headers (claim-side). -/
def addRedactNames (options : BuildRedactionOptions) : List Str :=
  options.additionalHeaders.filterMap (fun p =>
    match sanitizeHeader (p.1 ++ ':' :: ' ' :: p.2) with
    | some _ => if shouldRedact options p.1 then some p.1 else none
    | none => none)

/-- The Authorization header contributed by a truthy auth token (claim-side). -/
def authHeaderOf (options : BuildRedactionOptions) : List Str :=
  optHeader options.authToken (fun t =>
    str "Authorization: " ++ (if jsStartsWith t (str "Bearer ") then t else str "Bearer " ++ t))

/-- The Cookie header contributed by truthy cookies (claim-side). -/
def cookieHeaderOf (options : BuildRedactionOptions) : List Str :=
  optHeader options.cookies (fun c => str "Cookie: " ++ c)

/-- The redaction-name contribution of the Authorization header (claim-side). -/
def authRedactOf (options : BuildRedactionOptions) : List Str :=
  if truthy options.authToken && shouldRedact options (str "Authorization")
  then [str "Authorization"] else []

/-- The redaction-name contribution of the Cookie header (claim-side). -/
def cookieRedactOf (options : BuildRedactionOptions) : List Str :=
  if truthy options.cookies && shouldRedact options (str "Cookie")
  then [str "Cookie"] else []

/-- Wrapping of a redaction-name list into descriptors (claim-side). -/
def mkRedaction (ns : List Str) : List HeaderRedaction :=
  if ns.isEmpty then [] else [{ request := { headers := ns } }]

theorem foldl_push_pair (f : Str × Str → Option Str) (g : Str × Str → Bool) :
    ∀ (l : List (Str × Str)) (acc : List Str × List Str),
      l.foldl (fun acc p =>
          match f p with
          | some s => (acc.1 ++ [s], if g p then acc.2 ++ [p.1] else acc.2)
          | none => acc) acc
        = (acc.1 ++ l.filterMap f,
           acc.2 ++ l.filterMap (fun p =>
             match f p with
             | some _ => if g p then some p.1 else none
             | none => none))
  | [], acc => by simp
  | p :: t, acc => by
    simp only [List.foldl_cons, List.filterMap_cons]
    cases hf : f p with
    | some s =>
      by_cases hg : g p <;>
        simp only [hg, if_true, if_false] <;>
        rw [foldl_push_pair f g t] <;> simp
    | none => rw [foldl_push_pair f g t]

/-- The headers and redaction names accumulated before the additional
headers are processed (claim-side helper mirroring the source's first half). -/
def preState (options : BuildRedactionOptions) : List Str × List Str :=
  let headers : List Str := []
  let redactHeaders : List Str := []
  let headers := headers ++ [str "Accept: " ++ jsOr options.accept (str "application/json")]
  let st : List Str × List Str :=
    match options.authToken with
    | some t =>
      if t.isEmpty then (headers, redactHeaders)
      else
        let token := if jsStartsWith t (str "Bearer ") then t else str "Bearer " ++ t
        (headers ++ [str "Authorization: " ++ token],
         if shouldRedact options (str "Authorization") then redactHeaders ++ [str "Authorization"]
         else redactHeaders)
    | none => (headers, redactHeaders)
  match options.cookies with
  | some c =>
    if c.isEmpty then st
    else
      (st.1 ++ [str "Cookie: " ++ c],
       if shouldRedact options (str "Cookie") then st.2 ++ [str "Cookie"] else st.2)
  | none => st

theorem buildHeadersWithRedaction_eq_preState (options : BuildRedactionOptions) :
    buildHeadersWithRedaction options =
      { headers := (preState options).1 ++ addHeaderStrs options,
        redaction := mkRedaction ((preState options).2 ++ addRedactNames options) } := by
  simp only [buildHeadersWithRedaction, preState, addHeaderStrs, addRedactNames, mkRedaction]
  rw [foldl_push_pair (fun p => sanitizeHeader (p.1 ++ ':' :: ' ' :: p.2))
        (fun p => shouldRedact options p.1)]

theorem preState_decomp (options : BuildRedactionOptions) :
    preState options =
      ((str "Accept: " ++ jsOr options.accept (str "application/json"))
         :: (authHeaderOf options ++ cookieHeaderOf options),
       authRedactOf options ++ cookieRedactOf options) := by
  simp only [preState, authHeaderOf, cookieHeaderOf, authRedactOf, cookieRedactOf, optHeader]
  cases hauth : options.authToken with
  | none =>
    cases hcook : options.cookies with
    | none => simp [truthy]
    | some c =>
      cases hce : List.isEmpty c with
      | true => simp [truthy, hce, List.isEmpty_iff.mp hce]
      | false =>
        have hc : c ≠ [] := by simp [← List.isEmpty_iff, hce]
        cases h2 : shouldRedact options (str "Cookie") <;> simp [truthy, hc, h2]
  | some t =>
    cases hte : List.isEmpty t with
    | true =>
      have ht0 : t = [] := List.isEmpty_iff.mp hte
      cases hcook : options.cookies with
      | none => simp [truthy, hte, ht0]
      | some c =>
        cases hce : List.isEmpty c with
        | true => simp [truthy, hte, ht0, List.isEmpty_iff.mp hce]
        | false =>
          have hc : c ≠ [] := by simp [← List.isEmpty_iff, hce]
          cases h2 : shouldRedact options (str "Cookie") <;> simp [truthy, hte, ht0, hc, h2]
    | false =>
      have ht : t ≠ [] := by simp [← List.isEmpty_iff, hte]
      cases h1 : shouldRedact options (str "Authorization") with
      | true =>
        cases hcook : options.cookies with
        | none => simp [truthy, hte, ht, h1]
        | some c =>
          cases hce : List.isEmpty c with
          | true => simp [truthy, hte, ht, h1, List.isEmpty_iff.mp hce]
          | false =>
            have hc : c ≠ [] := by simp [← List.isEmpty_iff, hce]
            cases h2 : shouldRedact options (str "Cookie") <;> simp [truthy, hte, ht, h1, hc, h2]
      | false =>
        cases hcook : options.cookies with
        | none => simp [truthy, hte, ht, h1]
        | some c =>
          cases hce : List.isEmpty c with
          | true => simp [truthy, hte, ht, h1, List.isEmpty_iff.mp hce]
          | false =>
            have hc : c ≠ [] := by simp [← List.isEmpty_iff, hce]
            cases h2 : shouldRedact options (str "Cookie") <;> simp [truthy, hte, ht, h1, hc, h2]

/-- Structural decomposition of `buildHeadersWithRedaction`: Accept first,
then the optional Authorization and Cookie contributions, then the sanitized
additional headers; the redaction names accumulate in the same order. -/
theorem buildHeadersWithRedaction_decomp (options : BuildRedactionOptions) :
    buildHeadersWithRedaction options =
      { headers := (str "Accept: " ++ jsOr options.accept (str "application/json"))
                     :: (authHeaderOf options ++ cookieHeaderOf options ++ addHeaderStrs options),
        redaction := mkRedaction
          (authRedactOf options ++ cookieRedactOf options ++ addRedactNames options) } := by
  rw [buildHeadersWithRedaction_eq_preState, preState_decomp]
  simp [List.append_assoc]

theorem shouldRedact_iff (options : BuildRedactionOptions) (n : Str) :
    shouldRedact options n = true ↔
      ((strToLower n ∈ defaultSensitive ∨
        ∃ s ∈ options.sensitiveHeaders, strToLower s = strToLower n) ∧
       ∀ e ∈ options.excludeFromRedaction, strToLower e ≠ strToLower n) := by
  simp only [shouldRedact]
  by_cases hex : strToLower n ∈ options.excludeFromRedaction.map strToLower
  · rw [if_pos hex]
    constructor
    · intro h
      exact absurd h (by simp)
    · rintro ⟨-, hall⟩
      rcases List.mem_map.mp hex with ⟨e, he, heq⟩
      exact absurd heq (hall e he)
  · rw [if_neg hex]
    have hexall : ∀ e ∈ options.excludeFromRedaction, strToLower e ≠ strToLower n := by
      intro e he heq
      exact hex (List.mem_map.mpr ⟨e, he, heq⟩)
    by_cases hdef : strToLower n ∈ defaultSensitive
    · rw [if_pos hdef]
      exact ⟨fun _ => ⟨Or.inl hdef, hexall⟩, fun _ => rfl⟩
    · rw [if_neg hdef, List.any_eq_true]
      constructor
      · rintro ⟨x, hx, hbeq⟩
        exact ⟨Or.inr ⟨x, hx, beq_iff_eq.mp hbeq⟩, hexall⟩
      · rintro ⟨hOr, -⟩
        rcases hOr with h | ⟨x, hx, hxeq⟩
        · exact absurd h hdef
        · exact ⟨x, hx, beq_iff_eq.mpr hxeq⟩

theorem redactionNames_mk (hs : List Str) (ns : List Str) :
    redactionNames { headers := hs, redaction := mkRedaction ns } = ns := by
  simp only [redactionNames, mkRedaction]
  by_cases h : ns.isEmpty
  · simp [h, List.isEmpty_iff.mp h]
  · simp [h]

theorem headerName_canonical {nm : Str} (rest : Str) (h : ∀ c ∈ nm, c ≠ ':') :
    headerName (nm ++ ':' :: rest) = nm :=
  takeWhile_append_colon rest h

theorem headerName_accept (x : Str) : headerName (str "Accept: " ++ x) = str "Accept" := by
  have h1 : str "Accept: " ++ x = str "Accept" ++ ':' :: ' ' :: x := by
    have : str "Accept: " = str "Accept" ++ [':', ' '] := by decide
    rw [this, List.append_assoc]
    rfl
  rw [h1]
  exact headerName_canonical _ (by decide)

theorem headerName_authorization (x : Str) :
    headerName (str "Authorization: " ++ x) = str "Authorization" := by
  have h1 : str "Authorization: " ++ x = str "Authorization" ++ ':' :: ' ' :: x := by
    have : str "Authorization: " = str "Authorization" ++ [':', ' '] := by decide
    rw [this, List.append_assoc]
    rfl
  rw [h1]
  exact headerName_canonical _ (by decide)

theorem headerName_cookie (x : Str) : headerName (str "Cookie: " ++ x) = str "Cookie" := by
  have h1 : str "Cookie: " ++ x = str "Cookie" ++ ':' :: ' ' :: x := by
    have : str "Cookie: " = str "Cookie" ++ [':', ' '] := by decide
    rw [this, List.append_assoc]
    rfl
  rw [h1]
  exact headerName_canonical _ (by decide)

theorem authorization_line_eq (x : Str) :
    str "Authorization: " ++ x = str "Authorization" ++ ':' :: ' ' :: x := by
  have : str "Authorization: " = str "Authorization" ++ [':', ' '] := by decide
  rw [this, List.append_assoc]
  rfl

theorem cookie_line_eq (x : Str) :
    str "Cookie: " ++ x = str "Cookie" ++ ':' :: ' ' :: x := by
  have : str "Cookie: " = str "Cookie" ++ [':', ' '] := by decide
  rw [this, List.append_assoc]
  rfl

theorem mem_jsTrimEnd_of_mem {c : Char} (hc : isJsWhitespace c = false) {s : Str}
    (h : c ∈ s) : c ∈ jsTrimEnd s := by
  rw [jsTrimEnd]
  exact List.mem_reverse.mpr (mem_dropWhile_of_mem hc (List.mem_reverse.mpr h))

theorem jsTrimEnd_append {a b : Str} (hb : jsTrimEnd b ≠ []) :
    jsTrimEnd (a ++ b) = a ++ jsTrimEnd b := by
  have hb1 : b.reverse.dropWhile isJsWhitespace ≠ [] := by
    intro h0
    exact hb (by simp [jsTrimEnd, h0])
  have hb2 : (b.reverse.dropWhile isJsWhitespace).isEmpty = false := by
    cases hdw : (b.reverse.dropWhile isJsWhitespace).isEmpty with
    | false => rfl
    | true => exact absurd (List.isEmpty_iff.mp hdw) hb1
  rw [jsTrimEnd, List.reverse_append, List.dropWhile_append, if_neg (by simp [hb2])]
  rw [List.reverse_append, List.reverse_reverse]
  rfl

/-- For a clean key `k` (already trimmed and colon-free), an accepted
`sanitizeHeader (k ++ ": " ++ v)` output keeps `k` as its name part. -/
theorem sanitizeHeader_clean_key {k v s : Str} (hk : jsTrim k = k) (hkc : (':') ∉ k)
    (H : sanitizeHeader (k ++ ':' :: ' ' :: v) = some s) :
    ∃ w, s = k ++ ':' :: ' ' :: w := by
  have hbne : jsTrimEnd (':' :: ' ' :: v) ≠ [] :=
    List.ne_nil_of_mem (mem_jsTrimEnd_of_mem (by decide) (List.mem_cons_self _ _))
  obtain ⟨w, hw⟩ : ∃ w, jsTrimEnd (':' :: ' ' :: v) = ':' :: w := by
    cases hJ : jsTrimEnd (':' :: ' ' :: v) with
    | nil => exact absurd hJ hbne
    | cons a w =>
      have ha : (':' :: ' ' :: v).head? = some a := head_jsTrimEnd (by rw [hJ]; rfl)
      simp only [List.head?_cons, Option.some.injEq] at ha
      exact ⟨w, by rw [ha]⟩
  by_cases hk0 : k = []
  · exfalso
    subst hk0
    have htr : jsTrim (':' :: ' ' :: v) = ':' :: w := by
      rw [jsTrim, jsTrimStart_eq_self, hw]
      intro c hc
      simp only [List.head?_cons, Option.some.injEq] at hc
      subst hc
      decide
    simp only [sanitizeHeader, List.nil_append] at H
    rw [htr] at H
    simp [List.takeWhile_cons] at H
    exact H.1.1 (by decide)
  · have hhead : ∀ c, k.head? = some c → isJsWhitespace c = false := jsTrim_head_of_eq_self hk
    have htrs : jsTrimStart (k ++ ':' :: ' ' :: v) = k ++ ':' :: ' ' :: v := by
      apply jsTrimStart_eq_self
      intro c hc
      rw [List.head?_append] at hc
      cases hk1 : k.head? with
      | none => exact absurd (List.head?_eq_none_iff.mp hk1) hk0
      | some d =>
        rw [hk1] at hc
        simp only [Option.or_some, Option.some.injEq] at hc
        subst hc
        exact hhead d hk1
    have htr : jsTrim (k ++ ':' :: ' ' :: v) = k ++ ':' :: w := by
      rw [jsTrim, htrs, jsTrimEnd_append hbne, hw]
    have hkc' : ∀ c ∈ k, c ≠ ':' := fun c hc he => hkc (he ▸ hc)
    simp only [sanitizeHeader] at H
    rw [htr, takeWhile_append_colon _ hkc', dropWhile_append_colon _ hkc', hk] at H
    split at H
    · exact absurd H (by simp)
    · split at H
      · exact absurd H (by simp)
      · split at H
        · exact absurd H (by simp)
        · split at H
          · exact absurd H (by simp)
          · split at H
            · exact absurd H (by simp)
            · refine ⟨jsTrim ((':' :: w).drop 1), ?_⟩
              exact ((Option.some.injEq _ _ ▸ H)).symm

theorem mem_authRedactOf {options : BuildRedactionOptions} {n : Str}
    (h : n ∈ authRedactOf options) :
    n = str "Authorization" ∧ truthy options.authToken = true ∧
      shouldRedact options (str "Authorization") = true := by
  unfold authRedactOf at h
  split at h
  · next hcond =>
    have hn := List.mem_singleton.mp h
    simp only [Bool.and_eq_true] at hcond
    exact ⟨hn, hcond.1, hcond.2⟩
  · exact absurd h (List.not_mem_nil n)

theorem mem_cookieRedactOf {options : BuildRedactionOptions} {n : Str}
    (h : n ∈ cookieRedactOf options) :
    n = str "Cookie" ∧ truthy options.cookies = true ∧
      shouldRedact options (str "Cookie") = true := by
  unfold cookieRedactOf at h
  split at h
  · next hcond =>
    have hn := List.mem_singleton.mp h
    simp only [Bool.and_eq_true] at hcond
    exact ⟨hn, hcond.1, hcond.2⟩
  · exact absurd h (List.not_mem_nil n)

theorem mem_addRedactNames {options : BuildRedactionOptions} {n : Str}
    (h : n ∈ addRedactNames options) :
    ∃ p ∈ options.additionalHeaders,
      sanitizeHeader (p.1 ++ ':' :: ' ' :: p.2) ≠ none ∧
      shouldRedact options p.1 = true ∧ n = p.1 := by
  unfold addRedactNames at h
  rcases List.mem_filterMap.mp h with ⟨p, hp, hfp⟩
  cases hs : sanitizeHeader (p.1 ++ ':' :: ' ' :: p.2) with
  | none => rw [hs] at hfp; exact absurd hfp (by simp)
  | some s0 =>
    rw [hs] at hfp
    by_cases hr : shouldRedact options p.1
    · rw [if_pos hr] at hfp
      exact ⟨p, hp, by simp [hs], hr, (Option.some.inj hfp).symm⟩
    · rw [if_neg hr] at hfp
      exact absurd hfp (by simp)

theorem authRedact_into {options : BuildRedactionOptions}
    (htr : truthy options.authToken = true)
    (hsr : shouldRedact options (str "Authorization") = true) :
    str "Authorization" ∈ authRedactOf options := by
  unfold authRedactOf
  rw [if_pos (show (truthy options.authToken && shouldRedact options (str "Authorization")) = true by
    simp [htr, hsr])]
  exact List.mem_singleton.mpr rfl

theorem cookieRedact_into {options : BuildRedactionOptions}
    (htr : truthy options.cookies = true)
    (hsr : shouldRedact options (str "Cookie") = true) :
    str "Cookie" ∈ cookieRedactOf options := by
  unfold cookieRedactOf
  rw [if_pos (show (truthy options.cookies && shouldRedact options (str "Cookie")) = true by
    simp [htr, hsr])]
  exact List.mem_singleton.mpr rfl

theorem addRedact_into {options : BuildRedactionOptions} {p : Str × Str}
    (hp : p ∈ options.additionalHeaders)
    (hs : sanitizeHeader (p.1 ++ ':' :: ' ' :: p.2) ≠ none)
    (hr : shouldRedact options p.1 = true) : p.1 ∈ addRedactNames options := by
  unfold addRedactNames
  apply List.mem_filterMap.mpr
  refine ⟨p, hp, ?_⟩
  cases h0 : sanitizeHeader (p.1 ++ ':' :: ' ' :: p.2) with
  | none => exact absurd h0 hs
  | some s0 => simp [hr]

theorem optHeader_none (f : Str → Str) : optHeader none f = [] := rfl

theorem optHeader_some (v : Str) (f : Str → Str) :
    optHeader (some v) f = if v.isEmpty then [] else [f v] := rfl

theorem headerName_authHeaderOf {options : BuildRedactionOptions} {n : Str}
    (h : n ∈ (authHeaderOf options).map headerName) :
    n = str "Authorization" ∧ truthy options.authToken = true := by
  unfold authHeaderOf at h
  cases ha : options.authToken with
  | none => rw [ha, optHeader_none] at h; simp at h
  | some t =>
    rw [ha, optHeader_some] at h
    by_cases ht : t.isEmpty
    · rw [if_pos ht] at h; simp at h
    · rw [if_neg ht] at h
      simp only [List.map_cons, List.map_nil, List.mem_singleton] at h
      rw [headerName_authorization] at h
      refine ⟨h, ?_⟩
      simp only [truthy]
      cases hb : t.isEmpty with
      | true => exact absurd hb ht
      | false => rfl

theorem headerName_cookieHeaderOf {options : BuildRedactionOptions} {n : Str}
    (h : n ∈ (cookieHeaderOf options).map headerName) :
    n = str "Cookie" ∧ truthy options.cookies = true := by
  unfold cookieHeaderOf at h
  cases ha : options.cookies with
  | none => rw [ha, optHeader_none] at h; simp at h
  | some c =>
    rw [ha, optHeader_some] at h
    by_cases hc : c.isEmpty
    · rw [if_pos hc] at h; simp at h
    · rw [if_neg hc] at h
      simp only [List.map_cons, List.map_nil, List.mem_singleton] at h
      rw [headerName_cookie] at h
      refine ⟨h, ?_⟩
      simp only [truthy]
      cases hb : c.isEmpty with
      | true => exact absurd hb hc
      | false => rfl

theorem headerName_addHeaderStrs {options : BuildRedactionOptions} {n : Str}
    (hclean : ∀ p ∈ options.additionalHeaders, jsTrim p.1 = p.1 ∧ (':') ∉ p.1)
    (h : n ∈ (addHeaderStrs options).map headerName) :
    ∃ p ∈ options.additionalHeaders,
      sanitizeHeader (p.1 ++ ':' :: ' ' :: p.2) ≠ none ∧ n = p.1 := by
  unfold addHeaderStrs at h
  rcases List.mem_map.mp h with ⟨s0, hs0, hn⟩
  rcases List.mem_filterMap.mp hs0 with ⟨p, hp, hfp⟩
  rcases sanitizeHeader_clean_key (hclean p hp).1 (hclean p hp).2 hfp with ⟨w, hw⟩
  refine ⟨p, hp, by simp [hfp], ?_⟩
  rw [← hn, hw]
  exact headerName_canonical _ (fun c hc he => (hclean p hp).2 (he ▸ hc))

/-- **C2 (amended).** For every options record whose additional-header keys
are already trimmed and colon-free, an emitted header name other than the
always-present `Accept` appears in the redaction-name list iff its
lowercased form is in the default sensitive set or matches some
caller-supplied sensitive name case-insensitively, and it matches no
`excludeFromRedaction` entry (exclusion takes precedence).  The restriction
to non-`Accept` names and clean keys is forced: the always-emitted `Accept`
header is never offered for redaction, and for an unclean key the raw key,
not the emitted name, is recorded. -/
theorem buildHeadersWithRedaction_membership (options : BuildRedactionOptions)
    (hclean : ∀ p ∈ options.additionalHeaders, jsTrim p.1 = p.1 ∧ (':') ∉ p.1)
    (n : Str)
    (hmem : n ∈ (buildHeadersWithRedaction options).headers.map headerName)
    (hnacc : n ≠ str "Accept") :
    n ∈ redactionNames (buildHeadersWithRedaction options) ↔
      ((strToLower n ∈ defaultSensitive ∨
        ∃ s ∈ options.sensitiveHeaders, strToLower s = strToLower n) ∧
       ∀ e ∈ options.excludeFromRedaction, strToLower e ≠ strToLower n) := by
  rw [← shouldRedact_iff]
  rw [buildHeadersWithRedaction_decomp] at hmem ⊢
  rw [redactionNames_mk]
  simp only [List.map_cons, List.map_append, List.mem_cons, List.mem_append] at hmem
  constructor
  · intro hr
    rcases List.mem_append.mp hr with h12 | h3
    · rcases List.mem_append.mp h12 with h1 | h2
      · obtain ⟨hn, htr, hsr⟩ := mem_authRedactOf h1
        rw [hn]
        exact hsr
      · obtain ⟨hn, htr, hsr⟩ := mem_cookieRedactOf h2
        rw [hn]
        exact hsr
    · obtain ⟨p, hp, hs, hsr, hn⟩ := mem_addRedactNames h3
      rw [hn]
      exact hsr
  · intro hsr
    rcases hmem with h0 | ((h1 | h2) | h3)
    · exact absurd (h0.trans (headerName_accept _)) hnacc
    · obtain ⟨hn, htr⟩ := headerName_authHeaderOf h1
      subst hn
      exact List.mem_append.mpr (Or.inl (List.mem_append.mpr (Or.inl (authRedact_into htr hsr))))
    · obtain ⟨hn, htr⟩ := headerName_cookieHeaderOf h2
      subst hn
      exact List.mem_append.mpr (Or.inl (List.mem_append.mpr (Or.inr (cookieRedact_into htr hsr))))
    · obtain ⟨p, hp, hne, hn⟩ := headerName_addHeaderStrs hclean h3
      subst hn
      exact List.mem_append.mpr (Or.inr (addRedact_into hp hne hsr))

theorem authHeaderOf_of_truthy {options : BuildRedactionOptions}
    (h : truthy options.authToken = true) :
    ∃ tok, authHeaderOf options = [str "Authorization: " ++ tok] := by
  unfold authHeaderOf
  cases ha : options.authToken with
  | none => rw [ha] at h; exact absurd h (by simp [truthy])
  | some t =>
    rw [ha] at h
    have ht : t.isEmpty = false := by
      cases hb : t.isEmpty with
      | false => rfl
      | true => rw [truthy, hb] at h; exact absurd h (by simp)
    rw [optHeader_some, if_neg (by simp [ht])]
    exact ⟨_, rfl⟩

theorem cookieHeaderOf_of_truthy {options : BuildRedactionOptions}
    (h : truthy options.cookies = true) :
    ∃ c0, cookieHeaderOf options = [str "Cookie: " ++ c0] := by
  unfold cookieHeaderOf
  cases ha : options.cookies with
  | none => rw [ha] at h; exact absurd h (by simp [truthy])
  | some c =>
    rw [ha] at h
    have hc : c.isEmpty = false := by
      cases hb : c.isEmpty with
      | false => rfl
      | true => rw [truthy, hb] at h; exact absurd h (by simp)
    rw [optHeader_some, if_neg (by simp [hc])]
    exact ⟨c, rfl⟩

theorem authRedact_sublist (options : BuildRedactionOptions) :
    List.Sublist (authRedactOf options) ((authHeaderOf options).map headerName) := by
  unfold authRedactOf
  by_cases hcond : (truthy options.authToken && shouldRedact options (str "Authorization")) = true
  · rw [if_pos hcond]
    simp only [Bool.and_eq_true] at hcond
    obtain ⟨tok, htok⟩ := authHeaderOf_of_truthy hcond.1
    rw [htok]
    simp [headerName_authorization]
  · rw [if_neg hcond]
    exact List.nil_sublist _

theorem cookieRedact_sublist (options : BuildRedactionOptions) :
    List.Sublist (cookieRedactOf options) ((cookieHeaderOf options).map headerName) := by
  unfold cookieRedactOf
  by_cases hcond : (truthy options.cookies && shouldRedact options (str "Cookie")) = true
  · rw [if_pos hcond]
    simp only [Bool.and_eq_true] at hcond
    obtain ⟨c0, hc0⟩ := cookieHeaderOf_of_truthy hcond.1
    rw [hc0]
    simp [headerName_cookie]
  · rw [if_neg hcond]
    exact List.nil_sublist _

theorem addRedact_sublist_aux (options : BuildRedactionOptions) :
    ∀ l : List (Str × Str), (∀ p ∈ l, jsTrim p.1 = p.1 ∧ (':') ∉ p.1) →
      List.Sublist
        (l.filterMap (fun p =>
          match sanitizeHeader (p.1 ++ ':' :: ' ' :: p.2) with
          | some _ => if shouldRedact options p.1 then some p.1 else none
          | none => none))
        ((l.filterMap (fun p => sanitizeHeader (p.1 ++ ':' :: ' ' :: p.2))).map headerName)
  | [], _ => by simp
  | p :: t, hclean => by
    have hp := hclean p (List.mem_cons_self p t)
    have ih := addRedact_sublist_aux options t (fun q hq => hclean q (List.mem_cons_of_mem p hq))
    simp only [List.filterMap_cons]
    cases hs : sanitizeHeader (p.1 ++ ':' :: ' ' :: p.2) with
    | none => exact ih
    | some s0 =>
      obtain ⟨w, hw⟩ := sanitizeHeader_clean_key hp.1 hp.2 hs
      have hname : headerName s0 = p.1 := by
        rw [hw]
        exact headerName_canonical _ (fun c hc he => hp.2 (he ▸ hc))
      simp only [List.map_cons, hname]
      by_cases hr : shouldRedact options p.1
      · rw [if_pos hr]
        exact List.Sublist.cons₂ p.1 ih
      · rw [if_neg hr]
        exact List.Sublist.cons p.1 ih

theorem addRedact_sublist (options : BuildRedactionOptions)
    (hclean : ∀ p ∈ options.additionalHeaders, jsTrim p.1 = p.1 ∧ (':') ∉ p.1) :
    List.Sublist (addRedactNames options) ((addHeaderStrs options).map headerName) := by
  unfold addRedactNames addHeaderStrs
  exact addRedact_sublist_aux options options.additionalHeaders hclean

/-- **C3 (amended).** For every options record whose additional-header keys
are already trimmed and colon-free: every name in the redaction descriptor's
`request.headers` list is the name of a header actually present (some
returned header string is that name followed by `": "` and a value); the
names appear in emission order (the redaction-name list is a sublist of the
emitted names in order); and the descriptor list is a single
`{request := {headers := ...}}` element when the name list is non-empty,
and empty otherwise.  The restriction to clean keys is forced: with an
additional-header key that changes under sanitization (e.g. one with
surrounding whitespace) the raw key is recorded even though the emitted
header carries the sanitized name. -/
theorem buildHeadersWithRedaction_invariant (options : BuildRedactionOptions)
    (hclean : ∀ p ∈ options.additionalHeaders, jsTrim p.1 = p.1 ∧ (':') ∉ p.1) :
    (∀ n ∈ redactionNames (buildHeadersWithRedaction options),
       ∃ v, (n ++ ':' :: ' ' :: v) ∈ (buildHeadersWithRedaction options).headers) ∧
    List.Sublist (redactionNames (buildHeadersWithRedaction options))
      ((buildHeadersWithRedaction options).headers.map headerName) ∧
    (redactionNames (buildHeadersWithRedaction options) ≠ [] →
       (buildHeadersWithRedaction options).redaction =
         [{ request := { headers := redactionNames (buildHeadersWithRedaction options) } }]) ∧
    (redactionNames (buildHeadersWithRedaction options) = [] →
       (buildHeadersWithRedaction options).redaction = []) := by
  rw [buildHeadersWithRedaction_decomp]
  rw [redactionNames_mk]
  refine ⟨?_, ?_, ?_, ?_⟩
  · intro n hn
    rcases List.mem_append.mp hn with h12 | h3
    · rcases List.mem_append.mp h12 with h1 | h2
      · obtain ⟨hn', htr, hsr⟩ := mem_authRedactOf h1
        obtain ⟨tok, htok⟩ := authHeaderOf_of_truthy htr
        refine ⟨tok, ?_⟩
        apply List.mem_cons_of_mem
        apply List.mem_append.mpr
        apply Or.inl
        apply List.mem_append.mpr
        apply Or.inl
        rw [htok, hn']
        exact List.mem_singleton.mpr (authorization_line_eq tok).symm
      · obtain ⟨hn', htr, hsr⟩ := mem_cookieRedactOf h2
        obtain ⟨c0, hc0⟩ := cookieHeaderOf_of_truthy htr
        refine ⟨c0, ?_⟩
        apply List.mem_cons_of_mem
        apply List.mem_append.mpr
        apply Or.inl
        apply List.mem_append.mpr
        apply Or.inr
        rw [hc0, hn']
        exact List.mem_singleton.mpr (cookie_line_eq c0).symm
    · obtain ⟨p, hp, hsne, hsr, hn'⟩ := mem_addRedactNames h3
      rcases hq : sanitizeHeader (p.1 ++ ':' :: ' ' :: p.2) with _ | s0
      · exact absurd hq hsne
      · obtain ⟨w, hw⟩ := sanitizeHeader_clean_key (hclean p hp).1 (hclean p hp).2 hq
        refine ⟨w, ?_⟩
        apply List.mem_cons_of_mem
        apply List.mem_append.mpr
        apply Or.inr
        apply List.mem_filterMap.mpr
        refine ⟨p, hp, ?_⟩
        rw [hq, hw, hn']
  · rw [List.map_cons, List.map_append, List.map_append]
    apply List.Sublist.cons
    exact ((authRedact_sublist options).append (cookieRedact_sublist options)).append
      (addRedact_sublist options hclean)
  · intro hne
    simp only [mkRedaction]
    rw [if_neg ?hne2]
    case hne2 =>
      intro hemp
      exact hne (List.isEmpty_iff.mp hemp)
  · intro heq
    simp only [mkRedaction, heq]
    rfl

/-- Counterexample to C2 as stated: with `sensitiveHeaders := ["accept"]`,
the emitted header `Accept: application/json` has a name whose lowercase form
matches a caller-supplied sensitive entry and matches no exclusion, yet
`Accept` never enters the redaction-name list (the source only ever checks
`shouldRedact` for Authorization, Cookie and additional headers). -/
theorem buildHeadersWithRedaction_membership_cx :
    (str "Accept") ∈
      (buildHeadersWithRedaction { sensitiveHeaders := [str "accept"] }).headers.map headerName ∧
    ((strToLower (str "Accept") ∈ defaultSensitive ∨
      ∃ s ∈ ({ sensitiveHeaders := [str "accept"] } : BuildRedactionOptions).sensitiveHeaders,
        strToLower s = strToLower (str "Accept")) ∧
     ∀ e ∈ ({ sensitiveHeaders := [str "accept"] } : BuildRedactionOptions).excludeFromRedaction,
       strToLower e ≠ strToLower (str "Accept")) ∧
    (str "Accept") ∉
      redactionNames (buildHeadersWithRedaction { sensitiveHeaders := [str "accept"] }) := by
  decide

/-- Witness for (amended) C2 at `{authToken := "x"}` and name `Authorization`. -/
theorem buildHeadersWithRedaction_membership_witness :
    (str "Authorization") ∈
        redactionNames (buildHeadersWithRedaction { authToken := some (str "x") }) ↔
      ((strToLower (str "Authorization") ∈ defaultSensitive ∨
        ∃ s ∈ ({ authToken := some (str "x") } : BuildRedactionOptions).sensitiveHeaders,
          strToLower s = strToLower (str "Authorization")) ∧
       ∀ e ∈ ({ authToken := some (str "x") } : BuildRedactionOptions).excludeFromRedaction,
         strToLower e ≠ strToLower (str "Authorization")) :=
  buildHeadersWithRedaction_membership { authToken := some (str "x") }
    (fun p hp => absurd hp (List.not_mem_nil p)) (str "Authorization") (by decide) (by decide)

/-- Counterexample to C3 as stated: an additional-header key carrying
surrounding whitespace that is listed in `sensitiveHeaders` is recorded
verbatim in the redaction list, while the emitted header carries the
trimmed name, so the recorded name matches no emitted header. -/
theorem buildHeadersWithRedaction_invariant_cx :
    redactionNames (buildHeadersWithRedaction
        { additionalHeaders := [(str " X-Secret ", str "v")],
          sensitiveHeaders := [str " x-secret "] }) = [str " X-Secret "] ∧
    (buildHeadersWithRedaction
        { additionalHeaders := [(str " X-Secret ", str "v")],
          sensitiveHeaders := [str " x-secret "] }).headers =
      [str "Accept: application/json", str "X-Secret: v"] ∧
    ∀ v, (str " X-Secret " ++ ':' :: ' ' :: v) ∉
      (buildHeadersWithRedaction
        { additionalHeaders := [(str " X-Secret ", str "v")],
          sensitiveHeaders := [str " x-secret "] }).headers := by
  refine ⟨by decide, by decide, ?_⟩
  intro v hv
  have hh : (buildHeadersWithRedaction
      { additionalHeaders := [(str " X-Secret ", str "v")],
        sensitiveHeaders := [str " x-secret "] }).headers =
      [str "Accept: application/json", str "X-Secret: v"] := by decide
  rw [hh] at hv
  have hhead : ∀ x ∈ [str "Accept: application/json", str "X-Secret: v"],
      x.head? ≠ some ' ' := by decide
  have : (str " X-Secret " ++ ':' :: ' ' :: v).head? = some ' ' := rfl
  exact hhead _ hv this

/-- Witness for (amended) C3 at `{authToken := "x"}`. -/
theorem buildHeadersWithRedaction_invariant_witness :
    (∀ n ∈ redactionNames (buildHeadersWithRedaction { authToken := some (str "x") }),
       ∃ v, (n ++ ':' :: ' ' :: v) ∈
         (buildHeadersWithRedaction { authToken := some (str "x") }).headers) ∧
    List.Sublist
      (redactionNames (buildHeadersWithRedaction { authToken := some (str "x") }))
      ((buildHeadersWithRedaction { authToken := some (str "x") }).headers.map headerName) ∧
    (redactionNames (buildHeadersWithRedaction { authToken := some (str "x") }) ≠ [] →
       (buildHeadersWithRedaction { authToken := some (str "x") }).redaction =
         [{ request := { headers :=
              redactionNames (buildHeadersWithRedaction { authToken := some (str "x") }) } }]) ∧
    (redactionNames (buildHeadersWithRedaction { authToken := some (str "x") }) = [] →
       (buildHeadersWithRedaction { authToken := some (str "x") }).redaction = []) :=
  buildHeadersWithRedaction_invariant { authToken := some (str "x") }
    (fun p hp => absurd hp (List.not_mem_nil p))

end BuildRedaction

section Client

/-- A remote HTTP response as the client observes it after `fetch`:
status code and body text. -/
structure HttpResponse where
  status : Nat
  body : Str

/-- `Response.ok` of the WHATWG fetch API: status in the range 200-299. -/
def respOk (r : HttpResponse) : Bool :=
  200 ≤ r.status && r.status ≤ 299

/-- Response handling of `VouchClient.generateWebProof` (vouch-client.ts
lines 147-153): a non-ok status throws `Vouch API error (<status>): <body>`;
on success the JSON body is returned for parsing (the cast to `WebProof` is
unchecked in the source). -/
def generateWebProofOutcome (resp : HttpResponse) : Except Str Str :=
  if respOk resp then Except.ok resp.body
  else Except.error
    (str "Vouch API error (" ++ (Nat.repr resp.status).data ++ str "): " ++ resp.body)

/-- Response handling of `VouchClient.verifyWebProof` (vouch-client.ts
lines 170-175). -/
def verifyWebProofOutcome (resp : HttpResponse) : Except Str Str :=
  if respOk resp then Except.ok resp.body
  else Except.error
    (str "Verification API error (" ++ (Nat.repr resp.status).data ++ str "): " ++ resp.body)

/-- Substring containment (JavaScript `String.prototype.includes`). -/
def strContains : Str → Str → Bool
  | [], pat => pat.isEmpty
  | c :: rest, pat => jsStartsWith (c :: rest) pat || strContains rest pat

theorem jsStartsWith_append : ∀ (p r : Str), jsStartsWith (p ++ r) p = true
  | [], r => by cases r <;> rfl
  | c :: p, r => by simp [jsStartsWith, jsStartsWith_append p r]

theorem jsStartsWith_self (s : Str) : jsStartsWith s s = true := by
  have h := jsStartsWith_append s []
  rwa [List.append_nil] at h

theorem strContains_of_startsWith {s pat : Str} (h : jsStartsWith s pat = true) :
    strContains s pat = true := by
  cases s with
  | nil =>
    cases pat with
    | nil => rfl
    | cons _ _ => exact absurd h (by simp [jsStartsWith])
  | cons c rest => simp [strContains, h]

theorem strContains_append_left (pre : Str) {s pat : Str} (h : strContains s pat = true) :
    strContains (pre ++ s) pat = true := by
  induction pre with
  | nil => simpa using h
  | cons c t ih => simp [strContains, ih]

/-- **C6.** Every non-success remote status makes generateWebProof and
verifyWebProof fail, and the failure detail contains both the numeric status
code and the raw body text; a generate call answered 403/"forbidden" fails
with a detail containing both "403" and "forbidden". -/
theorem client_error_reporting (resp : HttpResponse) (h : respOk resp = false) :
    (∃ e, generateWebProofOutcome resp = Except.error e ∧
       strContains e (Nat.repr resp.status).data = true ∧
       strContains e resp.body = true) ∧
    (∃ e, verifyWebProofOutcome resp = Except.error e ∧
       strContains e (Nat.repr resp.status).data = true ∧
       strContains e resp.body = true) ∧
    (∃ e, generateWebProofOutcome { status := 403, body := str "forbidden" } = Except.error e ∧
       strContains e (str "403") = true ∧ strContains e (str "forbidden") = true) := by
  refine ⟨?_, ?_, ⟨_, rfl, by decide, by decide⟩⟩
  · refine ⟨_, by rw [generateWebProofOutcome, if_neg (by simp [h])], ?_, ?_⟩
    · rw [List.append_assoc, List.append_assoc]
      exact strContains_append_left _
        (strContains_of_startsWith (jsStartsWith_append _ _))
    · exact strContains_append_left _ (strContains_of_startsWith (jsStartsWith_self _))
  · refine ⟨_, by rw [verifyWebProofOutcome, if_neg (by simp [h])], ?_, ?_⟩
    · rw [List.append_assoc, List.append_assoc]
      exact strContains_append_left _
        (strContains_of_startsWith (jsStartsWith_append _ _))
    · exact strContains_append_left _ (strContains_of_startsWith (jsStartsWith_self _))

/-- Witness for C6 at status 500 with body `"oops"`. -/
theorem client_error_reporting_witness :
    ∃ e, generateWebProofOutcome { status := 500, body := str "oops" } = Except.error e ∧
      strContains e (Nat.repr (500 : Nat)).data = true ∧
      strContains e (str "oops") = true :=
  (client_error_reporting { status := 500, body := str "oops" } (by decide)).1

end Client

section Artifacts

mutual

/-- JSON values, the shapes `JSON.stringify` serializes in this client.
Numbers are modelled as integers, which covers everything the proof and
verification payloads carry in the claims considered here. -/
inductive JsValue where
  | null : JsValue
  | jbool : Bool → JsValue
  | jnum : Int → JsValue
  | jstr : Str → JsValue
  | jarr : JsArr → JsValue
  | jobj : JsObj → JsValue

inductive JsArr where
  | nil : JsArr
  | cons : JsValue → JsArr → JsArr

inductive JsObj where
  | nil : JsObj
  | cons : Str → JsValue → JsObj → JsObj

end

/-- The opening-brace character, written by code point. -/
def lbrace : Char := Char.ofNat 123

/-- The closing-brace character, written by code point. -/
def rbrace : Char := Char.ofNat 125

def hexDigit (n : Nat) : Char :=
  if n < 10 then Char.ofNat (48 + n) else Char.ofNat (87 + n)

/-- JSON string escaping as in `JSON.stringify` (quote, backslash, the named
control escapes, `\u00XX` for other control characters). -/
def escChar (c : Char) : Str :=
  if c = '"' then ['\\', '"']
  else if c = '\\' then ['\\', '\\']
  else if c.toNat = 8 then ['\\', 'b']
  else if c = '\t' then ['\\', 't']
  else if c = '\n' then ['\\', 'n']
  else if c.toNat = 12 then ['\\', 'f']
  else if c = '\r' then ['\\', 'r']
  else if c.toNat < 32 then ['\\', 'u', '0', '0', hexDigit (c.toNat / 16), hexDigit (c.toNat % 16)]
  else [c]

def jsonQuote (s : Str) : Str := '"' :: (s.map escChar).flatten ++ ['"']

def joinWith (sep : Str) : List Str → Str
  | [] => []
  | [x] => x
  | x :: y :: rest => x ++ sep ++ joinWith sep (y :: rest)

mutual

/-- `JSON.stringify` serialization of a value, with `gap` the indent unit and
`ind` the current indentation (ECMA-262 SerializeJSONObject/Array). -/
def stringifyVal (gap ind : Str) : JsValue → Str
  | .null => str "null"
  | .jbool b => if b then str "true" else str "false"
  | .jnum n => (Int.repr n).data
  | .jstr s => jsonQuote s
  | .jarr .nil => ['[', ']']
  | .jarr (.cons v rest) =>
    let items := stringifyArr gap (ind ++ gap) (.cons v rest)
    if gap.isEmpty then '[' :: joinWith [','] items ++ [']']
    else
      '[' :: '\n' :: (ind ++ gap) ++ joinWith (',' :: '\n' :: (ind ++ gap)) items ++
        '\n' :: ind ++ [']']
  | .jobj .nil => [lbrace, rbrace]
  | .jobj (.cons k v rest) =>
    let items := stringifyObj gap (ind ++ gap) (.cons k v rest)
    if gap.isEmpty then lbrace :: joinWith [','] items ++ [rbrace]
    else
      lbrace :: '\n' :: (ind ++ gap) ++ joinWith (',' :: '\n' :: (ind ++ gap)) items ++
        '\n' :: ind ++ [rbrace]

def stringifyArr (gap ind : Str) : JsArr → List Str
  | .nil => []
  | .cons v rest => stringifyVal gap ind v :: stringifyArr gap ind rest

def stringifyObj (gap ind : Str) : JsObj → List Str
  | .nil => []
  | .cons k v rest =>
    (jsonQuote k ++ (if gap.isEmpty then [':'] else [':', ' ']) ++ stringifyVal gap ind v)
      :: stringifyObj gap ind rest

end

/-- `JSON.stringify(value, null, indent)` with `indent` spaces of gap. -/
def jsonStringify (v : JsValue) (indent : Nat) : Str :=
  stringifyVal (List.replicate indent ' ') [] v

/-- `OutputMode` (vouch-client.ts line 443); `ret` models the string literal
`'return'`. -/
inductive OutputMode where
  | file : OutputMode
  | stdout : OutputMode
  | ret : OutputMode
  deriving DecidableEq

/-- `OutputOptions` (vouch-client.ts lines 459-470); `baseName` models the
source's filename-prefix option. -/
structure OutputOptions where
  mode : OutputMode
  outputDir : Option Str := none
  baseName : Option Str := none
  includeVerification : Option Bool := none
  pretty : Option Bool := none

structure ProofArtifactPaths where
  proofPath : Str
  verificationPath : Str
  deriving DecidableEq

/-- `ProofArtifactOutput` (vouch-client.ts lines 450-457). -/
structure ProofArtifactOutput where
  mode : OutputMode
  paths : Option ProofArtifactPaths := none
  json : Option Str := none
  deriving DecidableEq

/-- The observable side effects of one `outputProofArtifacts` call. -/
structure OutputEffects where
  dirsCreated : List Str
  filesWritten : List (Str × Str)
  stdoutWritten : List Str
  deriving DecidableEq

/-- JS truthiness of a JSON value (`null` falsy, objects truthy). -/
def jsTruthyVal : JsValue → Bool
  | .null => false
  | .jbool b => b
  | .jnum n => n != 0
  | .jstr s => !s.isEmpty
  | .jarr _ => true
  | .jobj _ => true

/-- `combinedOutput` (vouch-client.ts lines 489-491): `{proof, verification}`
when verification is included, `{proof}` otherwise. -/
def combinedOutput (proof verification : JsValue) (includeVerification : Bool) : JsValue :=
  if includeVerification then
    JsValue.jobj (.cons (str "proof") proof (.cons (str "verification") verification .nil))
  else JsValue.jobj (.cons (str "proof") proof .nil)

/-- `path.join` for a directory and a relative file name. -/
def pathJoin (dir file : Str) : Str := dir ++ '/' :: file

/-- `outputProofArtifacts` (vouch-client.ts lines 479-539).  The proof and the
verification (possibly `null`) are JSON values; `nowIso` stands for
`new Date().toISOString()` and `dirExists` for `fs.existsSync(outputDir)`;
the I/O a call performs is returned as an `OutputEffects` record alongside
the result, in program order, so a thrown error carries the effects up to
the throw (none, for the missing-directory error, which precedes all I/O). -/
def outputProofArtifacts (proof verification : JsValue) (output : OutputOptions)
    (nowIso : Str) (dirExists : Bool) :
    Except Str ProofArtifactOutput × OutputEffects :=
  let pretty := output.pretty.getD true
  let includeVerification := output.includeVerification.getD true
  let indent := if pretty then 2 else 0
  let combined := combinedOutput proof verification includeVerification
  match output.mode with
  | OutputMode.stdout =>
    let json := jsonStringify combined indent
    (Except.ok { mode := OutputMode.stdout },
     { dirsCreated := [], filesWritten := [], stdoutWritten := [json ++ ['\n']] })
  | OutputMode.ret =>
    let json := jsonStringify combined indent
    (Except.ok { mode := OutputMode.ret, json := some json },
     { dirsCreated := [], filesWritten := [], stdoutWritten := [] })
  | OutputMode.file =>
    if truthy output.outputDir then
      let dir := output.outputDir.getD []
      let base := output.baseName.getD (str "proof")
      let timestamp := nowIso.map (fun c => if c = ':' ∨ c = '.' then '-' else c)
      let proofPath := pathJoin dir (base ++ '-' :: timestamp ++ str ".json")
      let verificationPath :=
        pathJoin dir (base ++ str "-verification-" ++ timestamp ++ str ".json")
      let files :=
        (proofPath, jsonStringify proof indent)
          :: (if jsTruthyVal verification && includeVerification then
                [(verificationPath, jsonStringify verification indent)]
              else [])
      (Except.ok { mode := OutputMode.file, paths := some ⟨proofPath, verificationPath⟩ },
       { dirsCreated := if dirExists then [] else [dir],
         filesWritten := files, stdoutWritten := [] })
    else
      (Except.error (str "outputDir is required for file output mode"),
       { dirsCreated := [], filesWritten := [], stdoutWritten := [] })

example :
    jsonStringify (combinedOutput JsValue.null JsValue.null true) 2 =
      str "\x7b\n  \"proof\": null,\n  \"verification\": null\n\x7d" := by decide

example :
    jsonStringify (combinedOutput (JsValue.jstr (str "a")) JsValue.null false) 0 =
      str "\x7b\"proof\":\"a\"\x7d" := by decide

example :
    jsonStringify (JsValue.jarr (.cons (JsValue.jnum 1) (.cons (JsValue.jnum (-2)) .nil))) 2 =
      str "[\n  1,\n  -2\n]" := by decide

/-- **C7 (amended).** For every proof, verification value, include flag and
pretty flag, `return` mode and `stdout` mode compute the same JSON text; the
text written to standard output is that JSON text followed by exactly one
trailing newline (so the json field and the emitted bytes differ by that
newline only). -/
theorem outputProofArtifacts_stdout_ret (proof verification : JsValue)
    (o : OutputOptions) (nowIso : Str) (dirExists : Bool) :
    ∃ j,
      (outputProofArtifacts proof verification { o with mode := OutputMode.ret }
          nowIso dirExists).1 =
        Except.ok { mode := OutputMode.ret, json := some j } ∧
      (outputProofArtifacts proof verification { o with mode := OutputMode.stdout }
          nowIso dirExists).2.stdoutWritten = [j ++ ['\n']] :=
  ⟨jsonStringify (combinedOutput proof verification (o.includeVerification.getD true))
      (if o.pretty.getD true then 2 else 0), rfl, rfl⟩

/-- Counterexample to C7 as stated: at a concrete input, the text written to
standard output is the return-mode JSON text plus a trailing newline, hence
not byte-identical to the json field. -/
theorem outputProofArtifacts_stdout_ret_cx :
    ∃ j w,
      (outputProofArtifacts JsValue.null JsValue.null { mode := OutputMode.ret }
          (str "now") true).1 = Except.ok { mode := OutputMode.ret, json := some j } ∧
      (outputProofArtifacts JsValue.null JsValue.null { mode := OutputMode.stdout }
          (str "now") true).2.stdoutWritten = [w] ∧
      w ≠ j := by
  refine ⟨jsonStringify (combinedOutput JsValue.null JsValue.null true) 2,
          jsonStringify (combinedOutput JsValue.null JsValue.null true) 2 ++ ['\n'],
          rfl, rfl, ?_⟩
  intro he
  have hlen := congrArg List.length he
  simp at hlen

/-- **C8.** In file mode with no (or empty) output directory, the call fails
with the configuration error, and it fails before any I/O: no directory is
created, no file is written, nothing reaches stdout. -/
theorem outputProofArtifacts_file_noDir (proof verification : JsValue)
    (output : OutputOptions) (nowIso : Str) (dirExists : Bool)
    (hmode : output.mode = OutputMode.file)
    (hdir : truthy output.outputDir = false) :
    (outputProofArtifacts proof verification output nowIso dirExists).1 =
      Except.error (str "outputDir is required for file output mode") ∧
    (outputProofArtifacts proof verification output nowIso dirExists).2 =
      { dirsCreated := [], filesWritten := [], stdoutWritten := [] } := by
  simp only [outputProofArtifacts, hmode, hdir]
  exact ⟨rfl, rfl⟩

/-- Witness for C8: file mode without an output directory on a concrete call. -/
theorem outputProofArtifacts_file_noDir_witness :
    (outputProofArtifacts JsValue.null JsValue.null { mode := OutputMode.file }
        (str "now") false).1 =
      Except.error (str "outputDir is required for file output mode") ∧
    (outputProofArtifacts JsValue.null JsValue.null { mode := OutputMode.file }
        (str "now") false).2 =
      { dirsCreated := [], filesWritten := [], stdoutWritten := [] } :=
  outputProofArtifacts_file_noDir JsValue.null JsValue.null { mode := OutputMode.file }
    (str "now") false rfl rfl

/-- **C9.** A successful file-mode call always returns both `proofPath` and
`verificationPath`, including when the verification value is null or
`includeVerification` is false, in which case no file is written at
`verificationPath`. -/
theorem outputProofArtifacts_file_paths (proof verification : JsValue)
    (output : OutputOptions) (nowIso : Str) (dirExists : Bool)
    (hmode : output.mode = OutputMode.file)
    (hdir : truthy output.outputDir = true) :
    (outputProofArtifacts proof verification output nowIso dirExists).1 =
      Except.ok
        { mode := OutputMode.file,
          paths := some
            { proofPath := pathJoin (output.outputDir.getD [])
                (output.baseName.getD (str "proof") ++ '-' ::
                  nowIso.map (fun c => if c = ':' ∨ c = '.' then '-' else c) ++ str ".json"),
              verificationPath := pathJoin (output.outputDir.getD [])
                (output.baseName.getD (str "proof") ++ str "-verification-" ++
                  nowIso.map (fun c => if c = ':' ∨ c = '.' then '-' else c) ++
                  str ".json") } } ∧
    ((jsTruthyVal verification = false ∨ output.includeVerification.getD true = false) →
      ∀ f ∈ (outputProofArtifacts proof verification output nowIso dirExists).2.filesWritten,
        f.1 ≠ pathJoin (output.outputDir.getD [])
          (output.baseName.getD (str "proof") ++ str "-verification-" ++
            nowIso.map (fun c => if c = ':' ∨ c = '.' then '-' else c) ++ str ".json")) := by
  simp only [outputProofArtifacts, hmode, hdir, if_true]
  constructor
  · trivial
  · intro hcond f hf
    have hb : (jsTruthyVal verification && output.includeVerification.getD true) = false := by
      rcases hcond with h | h <;> simp [h]
    rw [hb] at hf
    simp only [if_neg (by simp : ¬(false = true))] at hf
    have hf1 := List.mem_singleton.mp hf
    intro hfe
    rw [hf1] at hfe
    have hlen := congrArg List.length hfe
    have l5 : (str ".json").length = 5 := by decide
    have l14 : (str "-verification-").length = 14 := by decide
    simp [pathJoin, List.length_append, l5, l14] at hlen
    omega

/-- Witness for C9: concrete file-mode call with null verification returns
both paths, and the only file written is the proof file. -/
theorem outputProofArtifacts_file_paths_witness :
    (outputProofArtifacts JsValue.null JsValue.null
        { mode := OutputMode.file, outputDir := some (str "out") } (str "T1:2.3") true).1 =
      Except.ok
        { mode := OutputMode.file,
          paths := some
            { proofPath := str "out/proof-T1-2-3.json",
              verificationPath := str "out/proof-verification-T1-2-3.json" } } ∧
    ((jsTruthyVal JsValue.null = false ∨ true = false) →
      ∀ f ∈ (outputProofArtifacts JsValue.null JsValue.null
          { mode := OutputMode.file, outputDir := some (str "out") }
          (str "T1:2.3") true).2.filesWritten,
        f.1 ≠ str "out/proof-verification-T1-2-3.json") :=
  outputProofArtifacts_file_paths JsValue.null JsValue.null
    { mode := OutputMode.file, outputDir := some (str "out") } (str "T1:2.3") true
    rfl (by decide)

end Artifacts

end Vouch
